import Mathlib

/-!
Shallow embedding of the setlist-builder backend.

Sources embedded here:
* src/backend/models/band.model.js — the Band schema (creation pre-save hook,
  hasMember / isLeader / hasPermission) and the Setlist schema (duration
  pre-save hook, isAccessibleBy, addSong, moveSong).
* src/backend/server.js — the socket.io collaboration handlers
  (join-setlist, update-setlist, disconnect).

Modelling conventions:
* Mongo ObjectIds carry no readable structure and are only ever compared
  through toString equality, so they are modelled as Nat.
* JS arrays written past their length become sparse; the sets array of a
  setlist is therefore a List (Option SetlistSet), a none being a hole
  (reading a hole yields undefined, Array.prototype.reduce skips holes).
* A song duration may be absent (undefined); the code reads it as
  (song.duration || 0), modelled by Option Int and getD 0.
* In-place mutation of a nested document is modelled by writing the updated
  value back at the same index.
* Thrown errors and rejected promises are modelled with Except.
-/

/-- A song entry inside a set (setlistSchema.sets.songs item). The isPlayed
flag keeps its schema default false. -/
structure SongEntry where
  songId : Nat
  order : Int
  duration : Option Int
  notes : String
  isPlayed : Bool
deriving DecidableEq

/-- A set inside a setlist (setlistSchema.sets item). -/
structure SetlistSet where
  name : String
  duration : Int
  songs : List SongEntry
deriving DecidableEq

/-- A versionHistory item of the setlist schema. The timestamp is irrelevant
to every property considered here and is omitted. -/
structure VersionRecord where
  version : Int
  changedBy : Nat
  changes : String
deriving DecidableEq

/-- The setlist document, restricted to the fields the embedded operations
read or write. -/
structure Setlist where
  title : String
  totalDuration : Int
  sets : List (Option SetlistSet)
  createdBy : Nat
  bandId : Option Nat
  isPublic : Bool
  version : Int
  versionHistory : List VersionRecord
deriving DecidableEq

instance {ε α : Type} [DecidableEq ε] [DecidableEq α] : DecidableEq (Except ε α)
  | Except.ok x, Except.ok y =>
    if h : x = y then Decidable.isTrue (by rw [h])
    else Decidable.isFalse (by intro hc; cases hc; exact h rfl)
  | Except.ok _, Except.error _ => Decidable.isFalse (by intro hc; cases hc)
  | Except.error _, Except.ok _ => Decidable.isFalse (by intro hc; cases hc)
  | Except.error e, Except.error f =>
    if h : e = f then Decidable.isTrue (by rw [h])
    else Decidable.isFalse (by intro hc; cases hc; exact h rfl)

/-- JS indexing l[i]: a negative index or an index past the end reads
undefined. -/
def jsGet {α : Type} (l : List α) (i : Int) : Option α :=
  if i < 0 then none else l[i.toNat]?

/-- Reading this.sets[i]: out of range and holes both give undefined. -/
def sparseGet (sets : List (Option SetlistSet)) (i : Int) : Option SetlistSet :=
  (jsGet sets i).join

/-- Writing this.sets[i] = v for a nonnegative index: inside the current
length it overwrites, past the end it extends the array with holes. -/
def sparseSet (sets : List (Option SetlistSet)) (i : Nat) (v : SetlistSet) :
    List (Option SetlistSet) :=
  if i < sets.length then sets.set i (some v)
  else sets ++ List.replicate (i - sets.length) none ++ [some v]

/-- The start-index arithmetic of Array.prototype.splice: a negative start
counts back from the end (floored at 0), any other start is capped at the
length. -/
def spliceStart (start : Int) (len : Nat) : Nat :=
  if start < 0 then ((len : Int) + start).toNat else min start.toNat len

/-- songs.splice(start, 0, x): insert x at the splice-adjusted start index. -/
def spliceInsert {α : Type} (l : List α) (start : Int) (x : α) : List α :=
  l.take (spliceStart start l.length) ++ x :: l.drop (spliceStart start l.length)

/-- Helper for renumber, carrying the running index of forEach. -/
def renumberFrom (i : Nat) : List SongEntry → List SongEntry
  | [] => []
  | s :: rest => { s with order := (i : Int) + 1 } :: renumberFrom (i + 1) rest

/-- songs.forEach((song, index) => song.order = index + 1). -/
def renumber (songs : List SongEntry) : List SongEntry :=
  renumberFrom 0 songs

/-- The next order number computed by addSong:
songs.length ? Math.max(...songs.map(s => s.order)) + 1 : 1. -/
def nextOrder (songs : List SongEntry) : Int :=
  match songs.map (fun s => s.order) with
  | [] => 1
  | o :: os => os.foldl max o + 1

/-- setlistSchema.methods.addSong(setIndex, songId, duration, notes).
When this.sets[setIndex] is undefined a fresh set named "Set " with the
1-based position is created there (its duration taking the schema default
0); the entry is pushed with order nextOrder. -/
def addSong (sl : Setlist) (setIndex : Nat) (songId : Nat) (duration : Option Int)
    (notes : String) : Setlist :=
  let st :=
    match sl.sets.getD setIndex none with
    | some st => st
    | none => { name := "Set " ++ toString (setIndex + 1), duration := 0, songs := [] }
  let entry : SongEntry :=
    { songId := songId, order := nextOrder st.songs, duration := duration,
      notes := notes, isPlayed := false }
  { sl with sets := sparseSet sl.sets setIndex { st with songs := st.songs ++ [entry] } }

/-- setlistSchema.methods.moveSong(fromSetIndex, fromSongIndex, toSetIndex,
toPosition). Validates the three indexes (throwing before any mutation),
splices the song out of the source, splices it into the destination at
toPosition, renumbers the destination, and renumbers the source when the two
sets differ. In the within-set case the insertion acts on the already
shortened array, because source and destination are the same array. -/
def moveSong (sl : Setlist) (fromSetIndex fromSongIndex toSetIndex toPosition : Int) :
    Except String Setlist :=
  match sparseGet sl.sets fromSetIndex, sparseGet sl.sets toSetIndex with
  | some fromSet, some toSet =>
    match jsGet fromSet.songs fromSongIndex with
    | none => Except.error "Invalid song index"
    | some song =>
      let fromSongs := fromSet.songs.eraseIdx fromSongIndex.toNat
      if fromSetIndex = toSetIndex then
        let destSongs := renumber (spliceInsert fromSongs toPosition song)
        Except.ok { sl with
          sets := sl.sets.set toSetIndex.toNat (some { toSet with songs := destSongs }) }
      else
        let destSongs := renumber (spliceInsert toSet.songs toPosition song)
        let sets1 := sl.sets.set toSetIndex.toNat (some { toSet with songs := destSongs })
        let sets2 := sets1.set fromSetIndex.toNat (some { fromSet with songs := renumber fromSongs })
        Except.ok { sl with sets := sets2 }
  | _, _ => Except.error "Invalid set index"

/-- The inner reduce of the duration pre-save hook:
songs.reduce((t, song) => t + (song.duration || 0), 0). -/
def songsDuration (songs : List SongEntry) : Int :=
  songs.foldl (fun acc s => acc + s.duration.getD 0) 0

/-- setlistSchema.pre("save"): every present set gets
set.duration = songsDuration(set.songs), and totalDuration becomes the sum
of those set durations (reduce skips the holes of a sparse array and leaves
them in place). -/
def setlistPreSave (sl : Setlist) : Setlist :=
  let sets := sl.sets.map (fun o => o.map (fun st => { st with duration := songsDuration st.songs }))
  let total := sets.foldl
    (fun acc o => match o with | none => acc | some st => acc + st.duration) 0
  { sl with sets := sets, totalDuration := total }

/-- A band member subdocument (role is the schema enum "leader" or
"member"; permissions hold strings from the schema enum). -/
structure BandMember where
  userId : Nat
  role : String
  permissions : List String
deriving DecidableEq

/-- The band document, restricted to the fields the embedded code reads. -/
structure Band where
  id : Nat
  name : String
  members : List BandMember
  createdBy : Nat
deriving DecidableEq

/-- The five permissions of the bandSchema enum, in schema order. -/
def allBandPermissions : List String :=
  ["edit_setlists", "add_songs", "edit_songs", "invite_members", "remove_members"]

/-- bandSchema.pre("save"): on a new document, if the creator is not yet in
members, push it as a leader holding all five permissions. -/
def bandPreSave (b : Band) (isNew : Bool) : Band :=
  if isNew then
    match b.members.find? (fun m => m.userId == b.createdBy) with
    | some _ => b
    | none =>
      { b with members := b.members ++
          [{ userId := b.createdBy, role := "leader", permissions := allBandPermissions }] }
  else b

/-- bandSchema.methods.hasMember. -/
def hasMember (b : Band) (userId : Nat) : Bool :=
  b.members.any (fun m => m.userId == userId)

/-- bandSchema.methods.isLeader (the undefined of a failed find is falsy). -/
def isLeader (b : Band) (userId : Nat) : Bool :=
  match b.members.find? (fun m => m.userId == userId) with
  | some m => m.role == "leader"
  | none => false

/-- bandSchema.methods.hasPermission. -/
def hasPermission (b : Band) (userId : Nat) (permission : String) : Bool :=
  match b.members.find? (fun m => m.userId == userId) with
  | none => false
  | some m => if m.role == "leader" then true else m.permissions.contains permission

/-- The environment of the asynchronous Band.findOne call: the stored bands,
and whether the store can be reached at all (an unreachable store makes the
awaited promise reject). -/
structure BandDirectory where
  bands : List Band
  reachable : Bool
deriving DecidableEq

/-- Band.findOne with an _id filter and a members.userId filter: resolves to
the first band with that id containing that member, null when there is none,
and rejects when the store is unreachable. -/
def bandFindOne (db : BandDirectory) (bandId userId : Nat) : Except Unit (Option Band) :=
  if db.reachable then
    Except.ok (db.bands.find? (fun b => b.id == bandId && b.members.any (fun m => m.userId == userId)))
  else Except.error ()

/-- setlistSchema.methods.isAccessibleBy(userId): public first, then creator,
then — only for a band-owned setlist — the awaited membership lookup, whose
rejection propagates out of the method (there is no try or catch around the
await). -/
def isAccessibleBy (db : BandDirectory) (sl : Setlist) (userId : Nat) : Except Unit Bool :=
  if sl.isPublic then Except.ok true
  else if sl.createdBy == userId then Except.ok true
  else
    match sl.bandId with
    | some bandId =>
      match bandFindOne db bandId userId with
      | Except.ok band => Except.ok band.isSome
      | Except.error e => Except.error e
    | none => Except.ok false

/-- One delivered socket event. -/
structure Delivery where
  recipient : Nat
  event : String
  setlistId : Nat
  payload : String
deriving DecidableEq

/-- The room membership held by the socket.io server: (socket id, room name)
pairs. A socket is in a given room at most once (socket.join is
idempotent). -/
structure ServerState where
  rooms : List (Nat × String)
deriving DecidableEq

/-- The room key used by both handlers in server.js. -/
def roomOf (setlistId : Nat) : String :=
  "setlist-" ++ toString setlistId

/-- socket.on("join-setlist"): socket.join("setlist-" + setlistId). -/
def joinSetlist (st : ServerState) (socketId : Nat) (setlistId : Nat) : ServerState :=
  if (socketId, roomOf setlistId) ∈ st.rooms then st
  else { rooms := st.rooms ++ [(socketId, roomOf setlistId)] }

/-- socket.on("update-setlist"): socket.to(room).emit("setlist-updated", data)
delivers the data to every socket currently in the room except the sender. -/
def updateSetlist (st : ServerState) (sender : Nat) (setlistId : Nat) (payload : String) :
    List Delivery :=
  (st.rooms.filter (fun p => p.2 == roomOf setlistId && p.1 != sender)).map
    (fun p => { recipient := p.1, event := "setlist-updated", setlistId := setlistId, payload := payload })

/-- socket.on("disconnect"): the socket leaves every room it had joined. -/
def disconnect (st : ServerState) (socketId : Nat) : ServerState :=
  { rooms := st.rooms.filter (fun p => p.1 != socketId) }

/-- Modelled from the spec: the route layer that commits a mutation and
records it in versionHistory is not under src (only the schema is); §4.4
gives its contract: appends a new VersionRecord with
version = setlist.version + 1, then sets setlist.version to that value. -/
def commit (sl : Setlist) (actorId : Nat) (description : String) : Setlist :=
  { sl with
      version := sl.version + 1,
      versionHistory := sl.versionHistory ++
        [{ version := sl.version + 1, changedBy := actorId, changes := description }] }

/-- Modelled from the spec: removeSong(setIndex, songIndex) is listed in §4.2
but absent from src: it removes the entry and renumbers the remaining
entries of that set contiguously; out-of-range indexes are InvalidReference
failures (§7) raised before any mutation. -/
def removeSong (sl : Setlist) (setIndex songIndex : Int) : Except String Setlist :=
  match sparseGet sl.sets setIndex with
  | none => Except.error "Invalid set index"
  | some st =>
    match jsGet st.songs songIndex with
    | none => Except.error "Invalid song index"
    | some _ =>
      Except.ok { sl with
        sets := sl.sets.set setIndex.toNat
          (some { st with songs := renumber (st.songs.eraseIdx songIndex.toNat) }) }

/-- The three ordering-engine operations on a setlist. -/
inductive SetlistOp where
  | add (setIndex : Nat) (songId : Nat) (duration : Option Int) (notes : String)
  | move (fromSetIndex fromSongIndex toSetIndex toPosition : Int)
  | remove (setIndex songIndex : Int)

/-- Apply one operation; a thrown InvalidReference leaves the document as it
was (validation precedes every mutation). -/
def applyOp (sl : Setlist) (op : SetlistOp) : Setlist :=
  match op with
  | SetlistOp.add i s d n => addSong sl i s d n
  | SetlistOp.move a b c d =>
    match moveSong sl a b c d with
    | Except.ok sl2 => sl2
    | Except.error _ => sl
  | SetlistOp.remove a b =>
    match removeSong sl a b with
    | Except.ok sl2 => sl2
    | Except.error _ => sl

/-- Apply a sequence of operations in order. -/
def applyOps (sl : Setlist) (ops : List SetlistOp) : Setlist :=
  ops.foldl applyOp sl

/-- The contiguous order range 1..n as a list of Int. -/
def rangeOrders (n : Nat) : List Int :=
  (List.range n).map (fun (i : Nat) => (i : Int) + 1)

/-- The per-set ordering invariant: the order values, in positional order,
are exactly 1..N. -/
def contiguousOrders (st : SetlistSet) : Prop :=
  st.songs.map (fun s => s.order) = rangeOrders st.songs.length

instance (st : SetlistSet) : Decidable (contiguousOrders st) :=
  inferInstanceAs (Decidable (_ = _))

/-- The invariant lifted to a possibly absent set: a hole has no songs to
constrain. -/
def contiguousOrdersOpt : Option SetlistSet → Prop
  | none => True
  | some st => contiguousOrders st

instance : DecidablePred contiguousOrdersOpt := fun o =>
  match o with
  | none => Decidable.isTrue trivial
  | some st => inferInstanceAs (Decidable (contiguousOrders st))

/-- The whole-setlist ordering invariant. -/
def OrderInv (sl : Setlist) : Prop :=
  ∀ o ∈ sl.sets, contiguousOrdersOpt o

instance (sl : Setlist) : Decidable (OrderInv sl) :=
  List.decidableBAll _ _

/-- A valid (0-based) index for a sequence of length n. -/
def validIdx (i : Int) (n : Nat) : Prop :=
  0 ≤ i ∧ i < (n : Int)

instance (i : Int) (n : Nat) : Decidable (validIdx i n) :=
  inferInstanceAs (Decidable (_ ∧ _))

/-- A setlist whose sets array is dense (no sparse-array holes). -/
def NoHoles (sl : Setlist) : Prop :=
  ∀ o ∈ sl.sets, o ≠ none

instance (sl : Setlist) : Decidable (NoHoles sl) :=
  List.decidableBAll _ _

/-- Membership of a user in the band with the given id, as seen through the
stored bands. -/
def memberOfBand (db : BandDirectory) (bandId userId : Nat) : Bool :=
  db.bands.any (fun b => b.id == bandId && b.members.any (fun m => m.userId == userId))

/-- The sum of the stored durations of the sets of a setlist (holes are not
sets and contribute nothing). -/
def sumSetDurations (sl : Setlist) : Int :=
  sl.sets.foldl (fun acc o => match o with | none => acc | some st => acc + st.duration) 0

/-- The version-history invariant of the spec: version numbers strictly
increase by 1 in append order, and the current version equals the version
of the last record. -/
def VersionInv (sl : Setlist) : Prop :=
  List.Chain' (fun a b => b.version = a.version + 1) sl.versionHistory ∧
  ∀ r, sl.versionHistory.getLast? = some r → r.version = sl.version

/-- The order values of the set at index i, in positional order ([] when no
set exists there). -/
def ordersAt (sl : Setlist) (i : Int) : List Int :=
  ((sparseGet sl.sets i).map (fun st => st.songs.map (fun s => s.order))).getD []

/-- A song entry literal used by the concrete examples below. -/
def mkSong (id : Nat) (ord : Int) (dur : Int) : SongEntry :=
  { songId := id, order := ord, duration := some dur, notes := "", isPlayed := false }

/-- Concrete setlist: one set holding three songs in order. -/
def slOneSet : Setlist :=
  { title := "t", totalDuration := 0,
    sets := [some { name := "Set 1", duration := 0,
                    songs := [mkSong 10 1 0, mkSong 20 2 0, mkSong 30 3 0] }],
    createdBy := 7, bandId := none, isPublic := false, version := 1, versionHistory := [] }

/-- Concrete set of four songs in order. -/
def setFour : SetlistSet :=
  { name := "Set 1", duration := 0,
    songs := [mkSong 1 1 0, mkSong 2 2 0, mkSong 3 3 0, mkSong 4 4 0] }

/-- Concrete empty set. -/
def setEmpty : SetlistSet :=
  { name := "Set 2", duration := 0, songs := [] }

/-- Concrete setlist: a four-song set followed by an empty set. -/
def slFourAndEmpty : Setlist :=
  { title := "t", totalDuration := 0, sets := [some setFour, some setEmpty],
    createdBy := 7, bandId := none, isPublic := false, version := 1, versionHistory := [] }

/-- The setlist slFourAndEmpty after moving its fourth song to the front of
the second set. -/
def slFourMoved : Setlist :=
  (moveSong slFourAndEmpty 0 3 1 0).toOption.getD slFourAndEmpty

/-- An unreachable band store: every awaited findOne on it rejects. -/
def dbDown : BandDirectory :=
  { bands := [], reachable := false }

/-- A private, band-owned setlist with no sets. -/
def slBandOwned : Setlist :=
  { title := "t", totalDuration := 0, sets := [], createdBy := 1, bandId := some 5,
    isPublic := false, version := 1, versionHistory := [] }

/-- A band whose creator is already listed, as a plain member with no
permissions, at creation time. -/
def bandCreatorListed : Band :=
  { id := 1, name := "b",
    members := [{ userId := 7, role := "member", permissions := [] }], createdBy := 7 }

/-- The (songId, order) pairs of the set at index i of a setlist, [] when no
set exists there. -/
def songPairsAt (sl : Setlist) (i : Int) : List (Nat × Int) :=
  ((sparseGet sl.sets i).map (fun st => st.songs.map (fun s => (s.songId, s.order)))).getD []

/-- The insertion index asserted by the specification: toPosition clamped to
the range [0, length]. -/
def claimClamp (pos : Int) (len : Nat) : Nat :=
  (max 0 (min pos (len : Int))).toNat

/-- Insertion at the claim-worded clamped position. -/
def clampInsert {α : Type} (l : List α) (pos : Int) (x : α) : List α :=
  l.take (claimClamp pos l.length) ++ x :: l.drop (claimClamp pos l.length)

/-- moveSong as the specification words it: identical removal, validation and
renumbering, but the entry is inserted at toPosition clamped to [0, length].
Stated from the spec text, to be compared with moveSong from the source. -/
def moveSongClaimed (sl : Setlist) (fromSetIndex fromSongIndex toSetIndex toPosition : Int) :
    Except String Setlist :=
  match sparseGet sl.sets fromSetIndex, sparseGet sl.sets toSetIndex with
  | some fromSet, some toSet =>
    match jsGet fromSet.songs fromSongIndex with
    | none => Except.error "Invalid song index"
    | some song =>
      let fromSongs := fromSet.songs.eraseIdx fromSongIndex.toNat
      if fromSetIndex = toSetIndex then
        let newSet := some { toSet with songs := renumber (clampInsert fromSongs toPosition song) }
        Except.ok { sl with sets := sl.sets.set toSetIndex.toNat newSet }
      else
        let sets1 := sl.sets.set toSetIndex.toNat
          (some { toSet with songs := renumber (clampInsert toSet.songs toPosition song) })
        let sets2 := sets1.set fromSetIndex.toNat
          (some { fromSet with songs := renumber fromSongs })
        Except.ok { sl with sets := sets2 }
  | _, _ => Except.error "Invalid set index"

/-! ### Helper lemmas -/

theorem renumberFrom_orders (l : List SongEntry) (i : Nat) :
    (renumberFrom i l).map (fun s => s.order)
      = (List.range l.length).map (fun k => ((i + k : Nat) : Int) + 1) := by
  induction l generalizing i with
  | nil => rfl
  | cons s rest ih =>
    rw [renumberFrom, List.map_cons, List.length_cons, List.range_succ_eq_map,
      List.map_cons, List.map_map, ih (i + 1)]
    congr 1
    apply List.map_congr_left
    intro k _
    show ((i + 1 + k : Nat) : Int) + 1 = ((i + (k + 1) : Nat) : Int) + 1
    push_cast
    ring

theorem renumber_orders (l : List SongEntry) :
    (renumber l).map (fun s => s.order) = rangeOrders l.length := by
  unfold renumber rangeOrders
  rw [renumberFrom_orders l 0]
  apply List.map_congr_left
  intro k _
  simp

theorem renumberFrom_length (l : List SongEntry) (i : Nat) :
    (renumberFrom i l).length = l.length := by
  induction l generalizing i with
  | nil => rfl
  | cons s rest ih => simp [renumberFrom, ih]

theorem renumber_length (l : List SongEntry) : (renumber l).length = l.length :=
  renumberFrom_length l 0

theorem contiguousOrders_renumber (st : SetlistSet) (l : List SongEntry) :
    contiguousOrders { st with songs := renumber l } := by
  unfold contiguousOrders
  simp only [renumber_orders, renumber_length]

theorem self_le_foldl_max (l : List Int) (o : Int) : o ≤ l.foldl max o := by
  induction l generalizing o with
  | nil => exact le_refl o
  | cons a rest ih => exact le_trans (le_max_left o a) (ih (max o a))

theorem le_foldl_max_of_mem {l : List Int} {a : Int} (h : a ∈ l) (o : Int) :
    a ≤ l.foldl max o := by
  induction l generalizing o with
  | nil => cases h
  | cons b rest ih =>
    rcases List.mem_cons.mp h with rfl | hmem
    · exact le_trans (le_max_right o a) (self_le_foldl_max rest (max o a))
    · exact ih hmem (max o b)

theorem foldl_max_eq_or_mem (l : List Int) (o : Int) :
    l.foldl max o = o ∨ l.foldl max o ∈ l := by
  induction l generalizing o with
  | nil => exact Or.inl rfl
  | cons a rest ih =>
    rcases ih (max o a) with h | h
    · rcases max_choice o a with hc | hc
      · exact Or.inl (by rw [List.foldl_cons, h, hc])
      · exact Or.inr (by rw [List.foldl_cons, h, hc]; exact List.mem_cons_self a rest)
    · exact Or.inr (List.mem_cons_of_mem a h)

theorem mem_rangeOrders {a : Int} {n : Nat} : a ∈ rangeOrders n ↔ 1 ≤ a ∧ a ≤ (n : Int) := by
  unfold rangeOrders
  simp only [List.mem_map, List.mem_range]
  constructor
  · rintro ⟨i, hi, rfl⟩
    omega
  · intro h
    refine ⟨(a - 1).toNat, by omega, by omega⟩

theorem nextOrder_of_contiguous {l : List SongEntry}
    (h : l.map (fun s => s.order) = rangeOrders l.length) :
    nextOrder l = (l.length : Int) + 1 := by
  unfold nextOrder
  cases hl : l.map (fun s => s.order) with
  | nil =>
    have : l.length = 0 := by
      have := congrArg List.length hl
      simpa using this
    rw [this]
    simp
  | cons o os =>
    rw [hl] at h
    have hmax : os.foldl max o = (l.length : Int) := by
      have hlen : 1 ≤ l.length := by
        have := congrArg List.length hl
        simp at this
        omega
    -- the fold is bounded above by l.length and reaches it
      have hub : ∀ a ∈ o :: os, a ≤ (l.length : Int) := by
        intro a ha
        have : a ∈ rangeOrders l.length := h ▸ ha
        exact (mem_rangeOrders.mp this).2
      have hmem : (l.length : Int) ∈ o :: os := by
        rw [h]
        exact mem_rangeOrders.mpr ⟨by omega, le_refl _⟩
      have hge : (l.length : Int) ≤ os.foldl max o := by
        rcases List.mem_cons.mp hmem with heq | hmem2
        · rw [heq]
          exact self_le_foldl_max os o
        · exact le_foldl_max_of_mem hmem2 o
      have hle : os.foldl max o ≤ (l.length : Int) := by
        rcases foldl_max_eq_or_mem os o with heq | hmem2
        · rw [heq]
          exact hub o (List.mem_cons_self o os)
        · exact hub _ (List.mem_cons_of_mem o hmem2)
      omega
    show os.foldl max o + 1 = (l.length : Int) + 1
    rw [hmax]

theorem rangeOrders_succ (n : Nat) :
    rangeOrders (n + 1) = rangeOrders n ++ [(n : Int) + 1] := by
  unfold rangeOrders
  rw [List.range_succ, List.map_append, List.map_cons, List.map_nil]

theorem contiguousOrders_append_entry {st : SetlistSet} (h : contiguousOrders st)
    (songId : Nat) (dur : Option Int) (nts : String) :
    contiguousOrders { st with
      songs := st.songs ++
        [{ songId := songId, order := nextOrder st.songs, duration := dur,
           notes := nts, isPlayed := false }] } := by
  unfold contiguousOrders at h ⊢
  simp only [List.map_append, List.length_append, List.map_cons, List.map_nil,
    List.length_cons, List.length_nil]
  rw [h, nextOrder_of_contiguous h, ← rangeOrders_succ]

theorem mem_sparseSet {sets : List (Option SetlistSet)} {i : Nat} {v : SetlistSet}
    {o : Option SetlistSet} (h : o ∈ sparseSet sets i v) :
    o ∈ sets ∨ o = some v ∨ o = none := by
  unfold sparseSet at h
  split at h
  · rcases List.mem_or_eq_of_mem_set h with h1 | h1
    · exact Or.inl h1
    · exact Or.inr (Or.inl h1)
  · rcases List.mem_append.mp h with h1 | h1
    · rcases List.mem_append.mp h1 with h2 | h2
      · exact Or.inl h2
      · exact Or.inr (Or.inr (List.eq_of_mem_replicate h2))
    · rcases List.mem_singleton.mp h1 with rfl
      exact Or.inr (Or.inl rfl)

theorem getD_none_eq_some {sets : List (Option SetlistSet)} {i : Nat} {st : SetlistSet}
    (h : sets.getD i none = some st) : sets[i]? = some (some st) := by
  rw [List.getD_eq_getElem?_getD] at h
  cases hx : sets[i]? with
  | none => rw [hx] at h; simp at h
  | some a =>
    rw [hx] at h
    simp only [Option.getD_some] at h
    exact congrArg some h

theorem contiguousOpt_of_set {sets : List (Option SetlistSet)}
    (h : ∀ o ∈ sets, contiguousOrdersOpt o) {n : Nat} {v : SetlistSet}
    (hv : contiguousOrders v) : ∀ o ∈ sets.set n (some v), contiguousOrdersOpt o := by
  intro o ho
  rcases List.mem_or_eq_of_mem_set ho with h1 | h1
  · exact h o h1
  · subst h1
    exact hv

theorem OrderInv_addSong {sl : Setlist} (h : OrderInv sl) (i sid : Nat)
    (dur : Option Int) (nts : String) : OrderInv (addSong sl i sid dur nts) := by
  unfold addSong OrderInv
  cases hset : sl.sets.getD i none with
  | some st =>
    intro o ho
    simp only [hset] at ho
    rcases mem_sparseSet ho with h1 | h1 | h1
    · exact h o h1
    · subst h1
      have hst : contiguousOrders st :=
        h _ (List.getElem?_mem (getD_none_eq_some hset))
      exact contiguousOrders_append_entry hst sid dur nts
    · subst h1
      trivial
  | none =>
    intro o ho
    simp only [hset] at ho
    rcases mem_sparseSet ho with h1 | h1 | h1
    · exact h o h1
    · subst h1
      show contiguousOrders _
      unfold contiguousOrders
      simp [nextOrder, rangeOrders, List.range_succ]
    · subst h1
      trivial

theorem OrderInv_moveSong {sl sl2 : Setlist} (h : OrderInv sl)
    {f fs t tp : Int} (hok : moveSong sl f fs t tp = Except.ok sl2) : OrderInv sl2 := by
  unfold moveSong at hok
  split at hok
  case h_2 => exact absurd hok (by simp)
  case h_1 fromSet toSet hf ht =>
    split at hok
    · exact absurd hok (by simp)
    case h_2 song hsong =>
      split at hok
      · rcases hok with ⟨rfl⟩
        exact contiguousOpt_of_set h (contiguousOrders_renumber _ _)
      · rcases hok with ⟨rfl⟩
        exact contiguousOpt_of_set
          (contiguousOpt_of_set h (contiguousOrders_renumber _ _))
          (contiguousOrders_renumber _ _)

theorem OrderInv_removeSong {sl sl2 : Setlist} (h : OrderInv sl)
    {i j : Int} (hok : removeSong sl i j = Except.ok sl2) : OrderInv sl2 := by
  unfold removeSong at hok
  split at hok
  · exact absurd hok (by simp)
  case h_2 st hst =>
    split at hok
    · exact absurd hok (by simp)
    · rcases hok with ⟨rfl⟩
      exact contiguousOpt_of_set h (contiguousOrders_renumber _ _)

theorem OrderInv_applyOp {sl : Setlist} (h : OrderInv sl) (op : SetlistOp) :
    OrderInv (applyOp sl op) := by
  cases op with
  | add i s d n => exact OrderInv_addSong h i s d n
  | move a b c d =>
    show OrderInv (match moveSong sl a b c d with
      | Except.ok sl2 => sl2
      | Except.error _ => sl)
    cases hm : moveSong sl a b c d with
    | ok sl2 => exact OrderInv_moveSong h hm
    | error e => exact h
  | remove a b =>
    show OrderInv (match removeSong sl a b with
      | Except.ok sl2 => sl2
      | Except.error _ => sl)
    cases hm : removeSong sl a b with
    | ok sl2 => exact OrderInv_removeSong h hm
    | error e => exact h

/-! ### Claim theorems -/

/-- C1: for every Set in a Setlist and every sequence of addSong / moveSong /
removeSong operations applied to it, immediately after each operation the
order values of each present set form the contiguous range 1..N with no gaps
and no duplicates (every prefix of the sequence is itself a sequence, so
invariance over all sequences gives the after-each-operation form). -/
theorem c1_order_invariant (sl : Setlist) (ops : List SetlistOp) (h : OrderInv sl) :
    OrderInv (applyOps sl ops) := by
  induction ops generalizing sl with
  | nil => exact h
  | cons op rest ih => exact ih _ (OrderInv_applyOp h op)

/-- Witness for C1 at a concrete setlist and a concrete operation sequence
exercising all three operations. -/
theorem c1_order_invariant_witness :
    OrderInv slFourAndEmpty ∧
      OrderInv (applyOps slFourAndEmpty
        [SetlistOp.move 0 3 1 0, SetlistOp.add 0 99 none "", SetlistOp.remove 1 0]) :=
  ⟨by decide, c1_order_invariant _ _ (by decide)⟩

/-- C2: after the duration pre-save hook runs, each present set stores the
sum of its song durations (absent durations counted 0), the setlist total
equals the sum of the set durations, and a second run changes nothing. -/
theorem c2_duration_recomputation (sl : Setlist) :
    (∀ o ∈ (setlistPreSave sl).sets, ∀ st, o = some st → st.duration = songsDuration st.songs) ∧
    (setlistPreSave sl).totalDuration = sumSetDurations (setlistPreSave sl) ∧
    setlistPreSave (setlistPreSave sl) = setlistPreSave sl := by
  refine ⟨?_, rfl, ?_⟩
  · intro o ho st hst
    unfold setlistPreSave at ho
    simp only [List.mem_map] at ho
    obtain ⟨o0, _, rfl⟩ := ho
    cases o0 with
    | none => cases hst
    | some st0 =>
      simp only [Option.map_some', Option.some.injEq] at hst
      rw [← hst]
  · unfold setlistPreSave
    simp only [List.map_map]
    have hFF : ((fun (o : Option SetlistSet) =>
          o.map (fun st => { st with duration := songsDuration st.songs })) ∘
        (fun (o : Option SetlistSet) =>
          o.map (fun st => { st with duration := songsDuration st.songs })))
        = (fun (o : Option SetlistSet) =>
          o.map (fun st => { st with duration := songsDuration st.songs })) := by
      funext o
      cases o <;> rfl
    rw [hFF]

/-- C3: each committed mutation appends exactly one VersionRecord carrying
version = previous version + 1 and stores that number as the current
version, preserving the strictly-increasing-by-1 history whose last record
matches the current version (modelled from the spec, see commit). -/
theorem c3_version_history (sl : Setlist) (actorId : Nat) (description : String)
    (h : VersionInv sl) :
    (commit sl actorId description).versionHistory
        = sl.versionHistory ++
          [{ version := sl.version + 1, changedBy := actorId, changes := description }] ∧
    (commit sl actorId description).version = sl.version + 1 ∧
    VersionInv (commit sl actorId description) := by
  refine ⟨rfl, rfl, ?_, ?_⟩
  · show List.Chain' (fun a b => b.version = a.version + 1)
      (sl.versionHistory ++
        [{ version := sl.version + 1, changedBy := actorId, changes := description }])
    rw [List.chain'_append]
    refine ⟨h.1, List.chain'_singleton _, ?_⟩
    intro x hx y hy
    simp only [List.head?_cons, Option.mem_def, Option.some.injEq] at hy
    subst hy
    have hlast := h.2 x (Option.mem_def.mp hx)
    show sl.version + 1 = x.version + 1
    rw [hlast]
  · intro r hr
    show r.version = sl.version + 1
    have : (sl.versionHistory ++
        [({ version := sl.version + 1, changedBy := actorId,
            changes := description } : VersionRecord)]).getLast? = some r := hr
    rw [List.getLast?_concat] at this
    cases this
    rfl

/-- Witness for C3 at a fresh setlist with empty history. -/
theorem c3_version_history_witness :
    (commit slBandOwned 9 "update").versionHistory
        = slBandOwned.versionHistory ++
          [{ version := slBandOwned.version + 1, changedBy := 9, changes := "update" }] ∧
    (commit slBandOwned 9 "update").version = slBandOwned.version + 1 ∧
    VersionInv (commit slBandOwned 9 "update") :=
  c3_version_history slBandOwned 9 "update"
    ⟨List.chain'_nil, fun r hr => by simp [slBandOwned] at hr⟩

/-- C9: a committed mutation broadcast into a room reaches every session in
the room other than the sender, carries the forwarded payload, never reaches
the sender, and in the concrete two-session scenario the non-sender receives
exactly one event. -/
theorem c9_broadcast (st : ServerState) (sender setlistId : Nat) (payload : String) :
    (∀ d ∈ updateSetlist st sender setlistId payload,
        d.recipient ≠ sender ∧ d.event = "setlist-updated" ∧ d.payload = payload) ∧
    (∀ sid, sid ≠ sender → (sid, roomOf setlistId) ∈ st.rooms →
        ({ recipient := sid, event := "setlist-updated", setlistId := setlistId,
           payload := payload } : Delivery) ∈ updateSetlist st sender setlistId payload) ∧
    (updateSetlist (joinSetlist (joinSetlist ({ rooms := [] } : ServerState) 100 1) 200 1)
        100 1 payload).map (fun d => d.recipient) = [200] := by
  refine ⟨?_, ?_, ?_⟩
  · intro d hd
    unfold updateSetlist at hd
    simp only [List.mem_map, List.mem_filter] at hd
    obtain ⟨p, ⟨_, hp⟩, rfl⟩ := hd
    simp only [Bool.and_eq_true, beq_iff_eq, bne_iff_ne, ne_eq] at hp
    exact ⟨hp.2, rfl, rfl⟩
  · intro sid hne hmem
    unfold updateSetlist
    simp only [List.mem_map, List.mem_filter]
    refine ⟨(sid, roomOf setlistId), ⟨hmem, ?_⟩, rfl⟩
    simp [hne]
  · rfl

/-- Witness for C9: in a two-member room the non-sender is delivered the
event. -/
theorem c9_broadcast_witness :
    ({ recipient := 200, event := "setlist-updated", setlistId := 1,
       payload := "v2" } : Delivery)
      ∈ updateSetlist { rooms := [(100, roomOf 1), (200, roomOf 1)] } 100 1 "v2" :=
  (c9_broadcast { rooms := [(100, roomOf 1), (200, roomOf 1)] } 100 1 "v2").2.1 200
    (by decide) (by decide)

/-- C5: against a reachable store, the read-access check answers exactly
public-or-owner-or-band-member; in particular a public setlist grants read
to an unrelated actor. -/
theorem c5_read_access (db : BandDirectory) (sl : Setlist) (userId : Nat)
    (hr : db.reachable = true) :
    isAccessibleBy db sl userId
      = Except.ok (sl.isPublic || sl.createdBy == userId ||
          (match sl.bandId with
           | some bandId => memberOfBand db bandId userId
           | none => false)) ∧
    (sl.isPublic = true → isAccessibleBy db sl userId = Except.ok true) := by
  constructor
  · cases hp : sl.isPublic with
    | true => simp [isAccessibleBy, hp]
    | false =>
      cases hc : sl.createdBy == userId with
      | true => simp [isAccessibleBy, hp, hc]
      | false =>
        cases hb : sl.bandId with
        | none => simp [isAccessibleBy, hp, hc, hb]
        | some bid =>
          simp only [isAccessibleBy, bandFindOne, memberOfBand, hp, hc, hb, hr,
            Bool.false_eq_true, if_false, if_true, Bool.false_or]
          congr 1
          rw [Bool.eq_iff_iff, List.find?_isSome, List.any_eq_true]
  · intro hp
    simp [isAccessibleBy, hp]

/-- Witness for C5: a public setlist read by an unrelated actor through a
reachable store. -/
theorem c5_read_access_witness :
    isAccessibleBy { bands := [], reachable := true }
        { title := "t", totalDuration := 0, sets := [], createdBy := 1, bandId := none,
          isPublic := true, version := 1, versionHistory := [] } 42
      = Except.ok ((true : Bool) || (1 : Nat) == 42 ||
          (match (none : Option Nat) with
           | some bandId => memberOfBand { bands := [], reachable := true } bandId 42
           | none => false)) ∧
    ((true : Bool) = true → isAccessibleBy { bands := [], reachable := true }
        { title := "t", totalDuration := 0, sets := [], createdBy := 1, bandId := none,
          isPublic := true, version := 1, versionHistory := [] } 42 = Except.ok true) :=
  c5_read_access { bands := [], reachable := true }
    { title := "t", totalDuration := 0, sets := [], createdBy := 1, bandId := none,
      isPublic := true, version := 1, versionHistory := [] } 42 rfl

/-- C7 counterexample: when the membership lookup cannot resolve (an
unreachable store) and the setlist is private, band-owned and read by a
non-owner, the evaluator rejects instead of returning false — there is no
catch around the awaited findOne. -/
theorem c7_counterexample :
    isAccessibleBy dbDown slBandOwned 2 = Except.error () ∧
    ∀ b : Bool, isAccessibleBy dbDown slBandOwned 2 ≠ Except.ok b := by
  refine ⟨rfl, ?_⟩
  intro b hb
  rw [show isAccessibleBy dbDown slBandOwned 2 = Except.error () from rfl] at hb
  exact Except.noConfusion hb

/-- C7 amended: the public and owner grants are decided before the lookup
and hold regardless of it; an absent band resolves to "no membership" and
the evaluator returns false; but a lookup that cannot resolve makes the
evaluator fail rather than return false. -/
theorem c7_access_error_amended (db : BandDirectory) (sl : Setlist) (userId : Nat) :
    (sl.isPublic = true → isAccessibleBy db sl userId = Except.ok true) ∧
    (sl.createdBy = userId → isAccessibleBy db sl userId = Except.ok true) ∧
    (db.reachable = true → (∀ b ∈ db.bands, sl.bandId ≠ some b.id) →
      sl.isPublic = false → sl.createdBy ≠ userId →
      isAccessibleBy db sl userId = Except.ok false) ∧
    (db.reachable = false → sl.isPublic = false → sl.createdBy ≠ userId →
      ∀ bandId, sl.bandId = some bandId →
      isAccessibleBy db sl userId = Except.error ()) := by
  refine ⟨?_, ?_, ?_, ?_⟩
  · intro hp
    simp [isAccessibleBy, hp]
  · intro hc
    cases hp : sl.isPublic with
    | true => simp [isAccessibleBy, hp]
    | false => simp [isAccessibleBy, hp, hc]
  · intro hr habsent hp hc
    cases hb : sl.bandId with
    | none => simp [isAccessibleBy, hp, hc, hb]
    | some bid =>
      have hfind : db.bands.find?
          (fun b => b.id == bid && b.members.any (fun m => m.userId == userId)) = none := by
        rw [List.find?_eq_none]
        intro b hb2
        simp only [Bool.and_eq_true, beq_iff_eq, not_and]
        intro hid _
        exact habsent b hb2 (by rw [hb, hid])
      simp [isAccessibleBy, bandFindOne, hp, hc, hb, hr, hfind]
  · intro hr hp hc bandId hb
    simp [isAccessibleBy, bandFindOne, hp, hc, hb, hr]

/-- Witness for C7 amended: the failing-lookup clause at the concrete
unreachable store. -/
theorem c7_access_error_amended_witness :
    isAccessibleBy dbDown slBandOwned 2 = Except.error () :=
  (c7_access_error_amended dbDown slBandOwned 2).2.2.2 (by decide) (by decide)
    (by decide) 5 (by decide)

/-- C10 counterexample: a band created with its creator already listed as a
plain member with no permissions keeps that entry unchanged, so the creator
is a member but holds no permission after the creation hook. -/
theorem c10_counterexample :
    bandPreSave bandCreatorListed true = bandCreatorListed ∧
    hasMember (bandPreSave bandCreatorListed true) 7 = true ∧
    hasPermission (bandPreSave bandCreatorListed true) 7 "edit_setlists" = false := by
  decide

/-- C10 amended: after the creation hook the creator is always a member; and
when the creator was not already listed it is appended as a leader with all
five permissions, hence holds every permission. -/
theorem c10_band_creator_amended (b : Band) :
    hasMember (bandPreSave b true) b.createdBy = true ∧
    ((∀ m ∈ b.members, m.userId ≠ b.createdBy) →
      (bandPreSave b true).members
          = b.members ++ [{ userId := b.createdBy, role := "leader",
                            permissions := allBandPermissions }] ∧
      ∀ p ∈ allBandPermissions, hasPermission (bandPreSave b true) b.createdBy p = true) := by
  have hfind : (∀ m ∈ b.members, m.userId ≠ b.createdBy) →
      b.members.find? (fun m => m.userId == b.createdBy) = none := by
    intro hnone
    rw [List.find?_eq_none]
    intro m hm
    simp only [beq_iff_eq]
    exact hnone m hm
  constructor
  · unfold bandPreSave hasMember
    cases hf : b.members.find? (fun m => m.userId == b.createdBy) with
    | some m =>
      have hpm := List.find?_some hf
      simp only [hf, if_true]
      exact List.any_eq_true.mpr ⟨m, List.mem_of_find?_eq_some hf, hpm⟩
    | none =>
      simp [hf]
  · intro hnone
    have hf : b.members.find? (fun m => m.userId == b.createdBy) = none := hfind hnone
    have hmembers : (bandPreSave b true).members
        = b.members ++ [{ userId := b.createdBy, role := "leader",
                          permissions := allBandPermissions }] := by
      unfold bandPreSave
      simp only [hf]
      rfl
    refine ⟨hmembers, ?_⟩
    intro p _
    unfold hasPermission
    rw [hmembers, List.find?_append, hf, Option.none_or]
    simp

/-- Witness for C10 amended at a band created with an empty member list. -/
theorem c10_band_creator_amended_witness :
    hasMember (bandPreSave { id := 3, name := "b", members := [], createdBy := 7 } true) 7
        = true ∧
    ((∀ m ∈ ({ id := 3, name := "b", members := [], createdBy := 7 } : Band).members,
        m.userId ≠ 7) →
      (bandPreSave { id := 3, name := "b", members := [], createdBy := 7 } true).members
          = ({ id := 3, name := "b", members := [], createdBy := 7 } : Band).members ++
              [{ userId := 7, role := "leader", permissions := allBandPermissions }] ∧
      ∀ p ∈ allBandPermissions,
        hasPermission (bandPreSave { id := 3, name := "b", members := [], createdBy := 7 } true)
          7 p = true) :=
  c10_band_creator_amended { id := 3, name := "b", members := [], createdBy := 7 }

theorem sparseSet_getD (sets : List (Option SetlistSet)) (i : Nat) (v : SetlistSet) :
    (sparseSet sets i v).getD i none = some v := by
  unfold sparseSet
  split
  case isTrue h =>
    rw [List.getD_eq_getElem?_getD, List.getElem?_set_self h]
    rfl
  case isFalse h =>
    have hlen : (sets ++ List.replicate (i - sets.length) none).length = i := by
      simp only [List.length_append, List.length_replicate]
      omega
    rw [List.getD_eq_getElem?_getD, List.getElem?_append_right (le_of_eq hlen)]
    rw [hlen]
    simp

theorem sparseSet_length (sets : List (Option SetlistSet)) (i : Nat) (v : SetlistSet) :
    (sparseSet sets i v).length = max sets.length (i + 1) := by
  unfold sparseSet
  split
  case isTrue h =>
    simp only [List.length_set]
    omega
  case isFalse h =>
    simp only [List.length_append, List.length_replicate, List.length_cons, List.length_nil]
    omega

/-- C8 amended: addSong creates the missing set at position setIndex with its
default positional name and a single entry of order 1; on an existing set it
appends one entry with order nextOrder = current maximum + 1 (1 when empty),
strictly greater than every order currently present in the set — addSong
never reuses a currently present order value, though a value retired by an
earlier mutation can be assigned again (see the counterexample). -/
theorem c8_addSong_amended (sl : Setlist) (setIndex songId : Nat)
    (dur : Option Int) (nts : String) :
    (sl.sets.getD setIndex none = none →
      (addSong sl setIndex songId dur nts).sets.getD setIndex none
          = some { name := "Set " ++ toString (setIndex + 1), duration := 0,
                   songs := [{ songId := songId, order := 1, duration := dur,
                               notes := nts, isPlayed := false }] } ∧
      (addSong sl setIndex songId dur nts).sets.length
          = max sl.sets.length (setIndex + 1)) ∧
    (∀ st, sl.sets.getD setIndex none = some st →
      (addSong sl setIndex songId dur nts).sets.getD setIndex none
          = some { st with songs := st.songs ++
              [{ songId := songId, order := nextOrder st.songs, duration := dur,
                 notes := nts, isPlayed := false }] } ∧
      (st.songs = [] → nextOrder st.songs = 1) ∧
      (st.songs ≠ [] →
        nextOrder st.songs - 1 ∈ st.songs.map (fun s => s.order) ∧
        ∀ s ∈ st.songs, s.order ≤ nextOrder st.songs - 1)) := by
  constructor
  · intro h
    have haddsets : (addSong sl setIndex songId dur nts).sets
        = sparseSet sl.sets setIndex
            { name := "Set " ++ toString (setIndex + 1), duration := 0,
              songs := [{ songId := songId, order := 1, duration := dur,
                          notes := nts, isPlayed := false }] } := by
      unfold addSong
      rw [h]
      rfl
    rw [haddsets]
    exact ⟨sparseSet_getD _ _ _, sparseSet_length _ _ _⟩
  · intro st h
    have haddsets : (addSong sl setIndex songId dur nts).sets
        = sparseSet sl.sets setIndex
            { st with songs := st.songs ++
              [{ songId := songId, order := nextOrder st.songs, duration := dur,
                 notes := nts, isPlayed := false }] } := by
      unfold addSong
      rw [h]
    refine ⟨by rw [haddsets]; exact sparseSet_getD _ _ _, ?_, ?_⟩
    · intro hempty
      rw [hempty]
      rfl
    · intro hne
      cases hsongs : st.songs with
      | nil => exact absurd hsongs hne
      | cons s rest =>
        have hnext : nextOrder (s :: rest)
            = (rest.map (fun s2 => s2.order)).foldl max s.order + 1 := rfl
        constructor
        · rw [hnext]
          simp only [List.map_cons, add_sub_cancel_right]
          rcases foldl_max_eq_or_mem (rest.map (fun s2 => s2.order)) s.order with he | hm
          · rw [he]
            exact List.mem_cons_self _ _
          · exact List.mem_cons_of_mem _ hm
        · intro s2 hs2
          rw [hnext]
          have hle : s2.order ≤ (rest.map (fun s3 => s3.order)).foldl max s.order := by
            rcases List.mem_cons.mp hs2 with rfl | hmem
            · exact self_le_foldl_max _ _
            · exact le_foldl_max_of_mem (List.mem_map_of_mem _ hmem) _
          omega

/-- Witness for C8 amended: appending to the existing first set of the
concrete setlist. -/
theorem c8_addSong_amended_witness :
    (addSong slFourAndEmpty 0 99 none "").sets.getD 0 none
        = some { setFour with songs := setFour.songs ++
            [{ songId := 99, order := nextOrder setFour.songs, duration := none,
               notes := "", isPlayed := false }] } :=
  ((c8_addSong_amended slFourAndEmpty 0 99 none "").2 setFour (by decide)).1

/-- C8 counterexample: the cross-set move retires order value 4 from the
first set (its entries become 1..3); the next addSong on that set assigns
order 4 again, reusing the retired value. -/
theorem c8_counterexample :
    moveSong slFourAndEmpty 0 3 1 0 = Except.ok slFourMoved ∧
    ordersAt slFourAndEmpty 0 = [1, 2, 3, 4] ∧
    ordersAt slFourMoved 0 = [1, 2, 3] ∧
    songPairsAt (addSong slFourMoved 0 99 none "") 0
        = [(1, 1), (2, 2), (3, 3), (99, 4)] := by
  decide

theorem jsGet_isSome {α : Type} (l : List α) (i : Int) :
    (jsGet l i).isSome = true ↔ validIdx i l.length := by
  unfold jsGet validIdx
  split
  case isTrue h =>
    simp only [Option.isSome_none, Bool.false_eq_true, false_iff, not_and]
    omega
  case isFalse h =>
    cases hx : l[i.toNat]? with
    | none =>
      have hge : l.length ≤ i.toNat := List.getElem?_eq_none_iff.mp hx
      simp only [Option.isSome_none, Bool.false_eq_true, false_iff, not_and]
      omega
    | some a =>
      have hlt : i.toNat < l.length := by
        rcases List.getElem?_eq_some_iff.mp hx with ⟨hl, _⟩
        exact hl
      simp only [Option.isSome_some, true_iff]
      omega

theorem sparseGet_isSome_nohole {sets : List (Option SetlistSet)}
    (hnh : ∀ o ∈ sets, o ≠ none) (i : Int) :
    (sparseGet sets i).isSome = true ↔ validIdx i sets.length := by
  unfold sparseGet
  rw [← jsGet_isSome sets i]
  cases hx : jsGet sets i with
  | none => simp
  | some o =>
    cases o with
    | none =>
      exfalso
      apply hnh none _ rfl
      unfold jsGet at hx
      split at hx
      all_goals first
        | exact List.getElem?_mem hx
        | cases hx
    | some st => simp

theorem moveSong_error_of_fromSet_none {sl : Setlist} {f fs t tp : Int}
    (hf : sparseGet sl.sets f = none) :
    moveSong sl f fs t tp = Except.error "Invalid set index" := by
  unfold moveSong
  rw [hf]

theorem moveSong_error_of_toSet_none {sl : Setlist} {f fs t tp : Int}
    (ht : sparseGet sl.sets t = none) :
    moveSong sl f fs t tp = Except.error "Invalid set index" := by
  unfold moveSong
  rw [ht]
  all_goals cases sparseGet sl.sets f <;> rfl

theorem moveSong_error_of_song_none {sl : Setlist} {f fs t tp : Int}
    {fromSet toSet : SetlistSet}
    (hf : sparseGet sl.sets f = some fromSet) (ht : sparseGet sl.sets t = some toSet)
    (hs : jsGet fromSet.songs fs = none) :
    moveSong sl f fs t tp = Except.error "Invalid song index" := by
  unfold moveSong
  simp only [hf, ht, hs]

theorem moveSong_isOk {sl : Setlist} {f fs t tp : Int}
    {fromSet toSet : SetlistSet} {song : SongEntry}
    (hf : sparseGet sl.sets f = some fromSet) (ht : sparseGet sl.sets t = some toSet)
    (hs : jsGet fromSet.songs fs = some song) :
    ∃ sl2, moveSong sl f fs t tp = Except.ok sl2 := by
  unfold moveSong
  simp only [hf, ht, hs]
  by_cases hft : f = t
  · rw [if_pos hft]
    exact ⟨_, rfl⟩
  · rw [if_neg hft]
    exact ⟨_, rfl⟩

/-- C6: moveSong fails with an InvalidReference error exactly when one of the
set indexes is out of range for the sets sequence or the source song index is
out of range for the source set (stated for setlists without sparse-array
holes, where position and existence coincide), and a failing call leaves the
setlist unchanged — validation precedes every mutation. -/
theorem c6_moveSong_errors (sl : Setlist) (f fs t tp : Int) (hnh : NoHoles sl) :
    ((∃ e, moveSong sl f fs t tp = Except.error e) ↔
      ¬ validIdx f sl.sets.length ∨ ¬ validIdx t sl.sets.length ∨
        ∀ st, sparseGet sl.sets f = some st → ¬ validIdx fs st.songs.length) ∧
    (∀ e, moveSong sl f fs t tp = Except.error e →
      applyOp sl (SetlistOp.move f fs t tp) = sl) := by
  have hunchanged : ∀ e, moveSong sl f fs t tp = Except.error e →
      applyOp sl (SetlistOp.move f fs t tp) = sl := by
    intro e he
    show (match moveSong sl f fs t tp with
      | Except.ok sl2 => sl2
      | Except.error _ => sl) = sl
    rw [he]
  refine ⟨?_, hunchanged⟩
  cases hf : sparseGet sl.sets f with
  | none =>
    constructor
    · intro _
      left
      intro hv
      have hsome := (sparseGet_isSome_nohole hnh f).mpr hv
      rw [hf] at hsome
      cases hsome
    · intro _
      exact ⟨_, @moveSong_error_of_fromSet_none sl f fs t tp hf⟩
  | some fromSet =>
    cases ht : sparseGet sl.sets t with
    | none =>
      constructor
      · intro _
        right
        left
        intro hv
        have hsome := (sparseGet_isSome_nohole hnh t).mpr hv
        rw [ht] at hsome
        cases hsome
      · intro _
        exact ⟨_, @moveSong_error_of_toSet_none sl f fs t tp ht⟩
    | some toSet =>
      cases hs : jsGet fromSet.songs fs with
      | none =>
        constructor
        · intro _
          right
          right
          intro st hst
          cases hst
          intro hv
          have hsome := (jsGet_isSome fromSet.songs fs).mpr hv
          rw [hs] at hsome
          cases hsome
        · intro _
          exact ⟨_, @moveSong_error_of_song_none sl f fs t tp fromSet toSet hf ht hs⟩
      | some song =>
        obtain ⟨sl2, hok⟩ := @moveSong_isOk sl f fs t tp fromSet toSet song hf ht hs
        constructor
        · rintro ⟨e, he⟩
          rw [hok] at he
          cases he
        · intro hcond
          exfalso
          rcases hcond with hb | hb | hb
          · exact hb ((sparseGet_isSome_nohole hnh f).mp (by rw [hf]; rfl))
          · exact hb ((sparseGet_isSome_nohole hnh t).mp (by rw [ht]; rfl))
          · exact hb fromSet rfl ((jsGet_isSome fromSet.songs fs).mp (by rw [hs]; rfl))

/-- Witness for C6 at a concrete hole-free setlist and an out-of-range set
index. -/
theorem c6_moveSong_errors_witness :
    ((∃ e, moveSong slOneSet 5 0 0 0 = Except.error e) ↔
      ¬ validIdx 5 slOneSet.sets.length ∨ ¬ validIdx 0 slOneSet.sets.length ∨
        ∀ st, sparseGet slOneSet.sets 5 = some st → ¬ validIdx 0 st.songs.length) ∧
    (∀ e, moveSong slOneSet 5 0 0 0 = Except.error e →
      applyOp slOneSet (SetlistOp.move 5 0 0 0) = slOneSet) :=
  c6_moveSong_errors slOneSet 5 0 0 0 (by decide)

theorem renumberFrom_songIds (l : List SongEntry) (i : Nat) :
    (renumberFrom i l).map (fun s => s.songId) = l.map (fun s => s.songId) := by
  induction l generalizing i with
  | nil => rfl
  | cons s rest ih =>
    simp only [renumberFrom, List.map_cons, ih]

theorem renumber_songIds (l : List SongEntry) :
    (renumber l).map (fun s => s.songId) = l.map (fun s => s.songId) :=
  renumberFrom_songIds l 0

theorem map_spliceInsert {α β : Type} (g : α → β) (l : List α) (start : Int) (x : α) :
    (spliceInsert l start x).map g = spliceInsert (l.map g) start (g x) := by
  unfold spliceInsert
  simp only [List.map_append, List.map_take, List.map_cons, List.map_drop, List.length_map]

theorem sparseGet_some_bounds {sets : List (Option SetlistSet)} {i : Int} {st : SetlistSet}
    (h : sparseGet sets i = some st) :
    0 ≤ i ∧ i.toNat < sets.length ∧ sets[i.toNat]? = some (some st) := by
  unfold sparseGet jsGet at h
  split at h
  case isTrue hneg => cases h
  case isFalse hpos =>
    cases hx : sets[i.toNat]? with
    | none =>
      rw [hx] at h
      cases h
    | some o =>
      rw [hx] at h
      cases o with
      | none => cases h
      | some st2 =>
        have : st2 = st := by
          simpa using h
        subst this
        have hlt : i.toNat < sets.length := by
          rcases List.getElem?_eq_some_iff.mp hx with ⟨hl, _⟩
          exact hl
        exact ⟨by omega, hlt, rfl⟩

theorem sparseGet_set_self {sets : List (Option SetlistSet)} {i : Int} (v : SetlistSet)
    (h0 : 0 ≤ i) (hlt : i.toNat < sets.length) :
    sparseGet (sets.set i.toNat (some v)) i = some v := by
  unfold sparseGet jsGet
  rw [if_neg (by omega), List.getElem?_set_self (by simpa using hlt)]
  rfl

theorem sparseGet_set_of_toNat_ne {sets : List (Option SetlistSet)} {n : Nat}
    (v : Option SetlistSet) {i : Int} (hne : i.toNat ≠ n) :
    sparseGet (sets.set n v) i = sparseGet sets i := by
  unfold sparseGet jsGet
  split
  · rfl
  · rw [List.getElem?_set_ne (by omega)]

/-- C4 amended: a valid moveSong removes the entry from the source set,
inserts it into the destination at the splice-adjusted position (a
nonnegative toPosition is capped at the length, but a negative toPosition
counts back from the end floored at 0 — JS splice semantics, not the plain
clamp to [0, length] the claim asserts), renumbers the destination
contiguously, renumbers the source exactly when the two sets differ, and
leaves every other set untouched. -/
theorem c4_moveSong_amended (sl : Setlist) (f fs t tp : Int)
    (fromSet toSet : SetlistSet) (song : SongEntry)
    (hf : sparseGet sl.sets f = some fromSet)
    (ht : sparseGet sl.sets t = some toSet)
    (hs : jsGet fromSet.songs fs = some song) :
    ∃ sl2, moveSong sl f fs t tp = Except.ok sl2 ∧
      sl2.sets.length = sl.sets.length ∧
      (∀ j : Nat, (j : Int) ≠ f → (j : Int) ≠ t → sl2.sets[j]? = sl.sets[j]?) ∧
      (∃ destSet, sparseGet sl2.sets t = some destSet ∧
        destSet.name = toSet.name ∧
        destSet.songs.map (fun s => s.songId)
          = spliceInsert ((if f = t then fromSet.songs.eraseIdx fs.toNat
              else toSet.songs).map (fun s => s.songId)) tp song.songId ∧
        contiguousOrders destSet) ∧
      (f ≠ t → ∃ srcSet, sparseGet sl2.sets f = some srcSet ∧
        srcSet.name = fromSet.name ∧
        srcSet.songs.map (fun s => s.songId)
          = (fromSet.songs.eraseIdx fs.toNat).map (fun s => s.songId) ∧
        contiguousOrders srcSet) ∧
      (f = t → sparseGet sl2.sets f = sparseGet sl2.sets t) := by
  obtain ⟨hf0, hflt, _⟩ := sparseGet_some_bounds hf
  obtain ⟨ht0, htlt, _⟩ := sparseGet_some_bounds ht
  by_cases hft : f = t
  · have hmove : moveSong sl f fs t tp = Except.ok { sl with sets := sl.sets.set t.toNat (some { toSet with songs := renumber (spliceInsert (fromSet.songs.eraseIdx fs.toNat) tp song) }) } := by
      unfold moveSong
      simp only [hf, ht, hs]
      rw [if_pos hft]
    refine ⟨_, hmove, ?_, ?_, ?_, ?_, ?_⟩
    · simp
    · intro j hjf hjt
      have h2 : t.toNat ≠ j := by omega
      exact List.getElem?_set_ne h2
    · refine ⟨_, sparseGet_set_self _ ht0 htlt, rfl, ?_, contiguousOrders_renumber _ _⟩
      show (renumber (spliceInsert (fromSet.songs.eraseIdx fs.toNat) tp song)).map
          (fun s => s.songId) = _
      rw [renumber_songIds, map_spliceInsert, if_pos hft]
    · intro hne
      exact absurd hft hne
    · intro _
      rw [hft]
  · have hmove : moveSong sl f fs t tp = Except.ok { sl with sets := (sl.sets.set t.toNat (some { toSet with songs := renumber (spliceInsert toSet.songs tp song) })).set f.toNat (some { fromSet with songs := renumber (fromSet.songs.eraseIdx fs.toNat) }) } := by
      unfold moveSong
      simp only [hf, ht, hs]
      rw [if_neg hft]
    refine ⟨_, hmove, ?_, ?_, ?_, ?_, ?_⟩
    · simp
    · intro j hjf hjt
      have h1 : f.toNat ≠ j := by omega
      have h2 : t.toNat ≠ j := by omega
      rw [List.getElem?_set_ne h1, List.getElem?_set_ne h2]
    · rw [sparseGet_set_of_toNat_ne _ (show Int.toNat t ≠ f.toNat by omega)]
      refine ⟨_, sparseGet_set_self _ ht0 htlt, rfl, ?_, contiguousOrders_renumber _ _⟩
      show (renumber (spliceInsert toSet.songs tp song)).map (fun s => s.songId) = _
      rw [renumber_songIds, map_spliceInsert, if_neg hft]
    · intro _
      have hflt2 : f.toNat < (sl.sets.set t.toNat (some { toSet with songs := renumber (spliceInsert toSet.songs tp song) })).length := by
        simpa using hflt
      exact ⟨_, sparseGet_set_self _ hf0 hflt2, rfl, renumber_songIds _,
        contiguousOrders_renumber _ _⟩
    · intro heq
      exact absurd heq hft

/-- Witness for C4 amended at the concrete cross-set move of the fourth song
to the front of the empty second set. -/
theorem c4_moveSong_amended_witness :
    ∃ sl2, moveSong slFourAndEmpty 0 3 1 0 = Except.ok sl2 ∧
      sl2.sets.length = slFourAndEmpty.sets.length ∧
      (∀ j : Nat, (j : Int) ≠ 0 → (j : Int) ≠ 1 → sl2.sets[j]? = slFourAndEmpty.sets[j]?) ∧
      (∃ destSet, sparseGet sl2.sets 1 = some destSet ∧
        destSet.name = setEmpty.name ∧
        destSet.songs.map (fun s => s.songId)
          = spliceInsert ((if (0 : Int) = 1 then setFour.songs.eraseIdx (3 : Int).toNat
              else setEmpty.songs).map (fun s => s.songId)) 0 (mkSong 4 4 0).songId ∧
        contiguousOrders destSet) ∧
      ((0 : Int) ≠ 1 → ∃ srcSet, sparseGet sl2.sets 0 = some srcSet ∧
        srcSet.name = setFour.name ∧
        srcSet.songs.map (fun s => s.songId)
          = (setFour.songs.eraseIdx (3 : Int).toNat).map (fun s => s.songId) ∧
        contiguousOrders srcSet) ∧
      ((0 : Int) = 1 → sparseGet sl2.sets 0 = sparseGet sl2.sets 1) :=
  c4_moveSong_amended slFourAndEmpty 0 3 1 0 setFour setEmpty (mkSong 4 4 0)
    (by decide) (by decide) (by decide)

/-- C4 counterexample: with toPosition = -1 on a three-song set, the code
inserts the moved entry before the last element (JS splice counts a negative
start back from the end) instead of at the clamped position 0 the claim
asserts; the source-derived moveSong and the claim-worded moveSongClaimed
disagree. -/
theorem c4_counterexample :
    moveSong slOneSet 0 0 0 (-1) ≠ moveSongClaimed slOneSet 0 0 0 (-1) ∧
    (match moveSong slOneSet 0 0 0 (-1) with
     | Except.ok sl2 => songPairsAt sl2 0
     | Except.error _ => []) = [(20, 1), (10, 2), (30, 3)] ∧
    (match moveSongClaimed slOneSet 0 0 0 (-1) with
     | Except.ok sl2 => songPairsAt sl2 0
     | Except.error _ => []) = [(10, 1), (20, 2), (30, 3)] := by
  decide

/-- Witness for C2 at the concrete setlist. -/
theorem c2_duration_recomputation_witness :
    (∀ o ∈ (setlistPreSave slFourAndEmpty).sets, ∀ st, o = some st →
        st.duration = songsDuration st.songs) ∧
    setlistPreSave (setlistPreSave slFourAndEmpty) = setlistPreSave slFourAndEmpty :=
  ⟨(c2_duration_recomputation slFourAndEmpty).1,
    (c2_duration_recomputation slFourAndEmpty).2.2⟩
